import Mathlib

/-!
Shallow embedding of the `jst` template tokenizer and token compressor.

The embedding follows the TypeScript sources:
  * `src/common.ts` — `Location`, `RangeWithLocation`, `LocationSnapshot`,
    `LocationTracker`, `TokenType`, `Token`;
  * `src/internal/tokenizer.ts` — the character-driven state machine
    (`Mode`, `State`, `createState`, `trackCharacter`, `flushRange`,
    `flushBuffer`, the transition functions, `processCharacter`,
    `tokenizeChunk`, `flushState`, `tokenize`);
  * `token_compressor.ts` — `State`, `flushState`, `processToken`,
    `compressTokens`.

JavaScript numbers that stay non-negative throughout (offsets, lines,
columns) are embedded as `Nat`; the interpolation brace counter `n` is
embedded as `Int` because the source decrements it before comparing with 0.
Mutation of the single session-local state object becomes explicit state
passing; functions that push tokens into an array instead return the list of
tokens pushed during the call.  A function that can throw returns `Except`.
The tokenizer's runtime-shaped mode object (`LiteralMode` / `EscapeMode` /
`InterpolationMode`) becomes a sum type carrying the per-variant payload.

Two members of the token model live in `src/internal/common.ts`, a file that
is absent from the source tree (only its tests and its callers are present):
`LocationTracker.offset` and `Token.concat`.  Those two definitions are
modelled from the spec and are marked as such in their doc comments.
-/

namespace Jst

/-- Line/column position, from `Location` in `src/common.ts`.  The source
constructor rejects `line < 1` and `column < 0`; `column ≥ 0` is automatic
for `Nat` and no claim exercises the `line` check. -/
structure Location where
  line : Nat
  column : Nat
deriving DecidableEq, Repr

/-- Offset range plus start/end locations, from `RangeWithLocation` (and its
base class `Range`) in `src/common.ts`.  The field `stop` embeds the source's
`end`, which is a reserved word in Lean. -/
structure RangeWithLocation where
  start : Nat
  stop : Nat
  startLocation : Location
  endLocation : Location
deriving DecidableEq, Repr

/-- Immutable capture of `(offset, line, column)`, from `LocationSnapshot`
in `src/common.ts`. -/
structure LocationSnapshot where
  offset : Nat
  line : Nat
  column : Nat
deriving DecidableEq, Repr

/-- `LocationSnapshot.complete` from `src/common.ts`: the earlier snapshot
supplies the start offset/location, the later one the end offset/location. -/
def LocationSnapshot.complete (s other : LocationSnapshot) : RangeWithLocation :=
  { start := s.offset
    stop := other.offset
    startLocation := { line := s.line, column := s.column }
    endLocation := { line := other.line, column := other.column } }

/-- Mutable `(offset, line, column)` cursor, from `LocationTracker` in
`src/common.ts`. -/
structure LocationTracker where
  offset : Nat
  line : Nat
  column : Nat
deriving DecidableEq, Repr

/-- `LocationTracker.column(n)` from `src/common.ts`: advance offset and
column by `n`.  Named `advanceColumn` here because the Lean field `column`
occupies the source method's name; the source's `n < 0` check is
unrepresentable for `Nat`. -/
def LocationTracker.advanceColumn (t : LocationTracker) (n : Nat) : LocationTracker :=
  { t with column := t.column + n, offset := t.offset + n }

/-- `LocationTracker.line(n)` from `src/common.ts`: advance offset and line
by `n` and reset the column to 0. -/
def LocationTracker.advanceLine (t : LocationTracker) (n : Nat) : LocationTracker :=
  { t with line := t.line + n, column := 0, offset := t.offset + n }

/-- Modelled from the spec: `LocationTracker.offset(n)` is defined in
`src/internal/common.ts`, which is absent from the source tree (only its
tests in `src/internal/common_test.ts` and its caller `trackCharacter`
exist).  Spec §4.1: `advanceOffsetOnly` increments the offset by `n` only,
moving neither line nor column (used for carriage return, which must not
count as a column). -/
def LocationTracker.advanceOffsetOnly (t : LocationTracker) (n : Nat) : LocationTracker :=
  { t with offset := t.offset + n }

/-- `LocationTracker.snapshot()` from `src/common.ts`. -/
def LocationTracker.snapshot (t : LocationTracker) : LocationSnapshot :=
  { offset := t.offset, line := t.line, column := t.column }

/-- `LocationTracker.complete(snapshot)` from `src/common.ts`: complete the
given snapshot with the tracker's current position. -/
def LocationTracker.complete (t : LocationTracker) (snapshot : LocationSnapshot) :
    RangeWithLocation :=
  snapshot.complete t.snapshot

/-- `TokenType` from `src/common.ts`. -/
inductive TokenType where
  | Literal
  | Interpolation
deriving DecidableEq, Repr

/-- `Token` from `src/common.ts`. -/
structure Token where
  type : TokenType
  value : String
  range : RangeWithLocation
deriving DecidableEq, Repr

/-- The failure of `Token.concat`; the spec's `IncompatibleConcat` error
condition. -/
inductive ConcatError where
  | incompatibleConcat
deriving DecidableEq, Repr

/-- Modelled from the spec: `Token.concat` is defined in
`src/internal/common.ts`, which is absent from the source tree (only its
tests in `src/internal/common_test.ts` and its caller `processToken` exist).
Spec §3: concat is valid only when both tokens share `type` and are
offset-adjacent (`this.range.end === other.range.start`); it produces a new
token with concatenated value and a range spanning both, and otherwise fails
with `IncompatibleConcat` (spec §7). -/
def Token.concat (t other : Token) : Except ConcatError Token :=
  if t.type = other.type ∧ t.range.stop = other.range.start then
    Except.ok
      { type := t.type
        value := t.value ++ other.value
        range :=
          { start := t.range.start
            stop := other.range.stop
            startLocation := t.range.startLocation
            endLocation := other.range.endLocation } }
  else
    Except.error ConcatError.incompatibleConcat

namespace Tokenizer

/-- The tokenizer mode, from the `Mode` enum of `src/internal/tokenizer.ts`,
fused with the per-variant payload of `LiteralMode` / `EscapeMode` /
`InterpolationMode` (the buffers and the interpolation brace counter `n`),
as the spec's design notes (§9) direct for the runtime-shaped state object. -/
inductive Mode where
  | literal (buffer : String)
  | escape
  | interpolation (buffer : String) (n : Int)
deriving DecidableEq, Repr

/-- `true` exactly on `Mode.literal`. -/
def Mode.isLiteral : Mode → Bool
  | Mode.literal _ => true
  | _ => false

/-- `true` exactly on `Mode.escape`. -/
def Mode.isEscape : Mode → Bool
  | Mode.escape => true
  | _ => false

/-- `true` exactly on `Mode.interpolation`. -/
def Mode.isInterpolation : Mode → Bool
  | Mode.interpolation _ _ => true
  | _ => false

/-- The tokenizer state, from `State` (and `BaseMode`) in
`src/internal/tokenizer.ts`. -/
structure State where
  locationTracker : LocationTracker
  locationSnapshot : LocationSnapshot
  mode : Mode
deriving DecidableEq, Repr

/-- `createState` from `src/internal/tokenizer.ts`: literal mode, empty
buffer, tracker at offset 0 / line 1 / column 0, snapshot of that position. -/
def createState : State :=
  let locationTracker : LocationTracker := { offset := 0, line := 1, column := 0 }
  { locationTracker := locationTracker
    locationSnapshot := locationTracker.snapshot
    mode := Mode.literal "" }

/-- `trackCharacter` from `src/internal/tokenizer.ts`: `\n` advances the
line, `\r` advances the offset only, anything else advances the column. -/
def trackCharacter (state : State) (character : Char) : State :=
  match character with
  | '\n' => { state with locationTracker := state.locationTracker.advanceLine 1 }
  | '\r' => { state with locationTracker := state.locationTracker.advanceOffsetOnly 1 }
  | _ => { state with locationTracker := state.locationTracker.advanceColumn 1 }

/-- `flushRange` from `src/internal/tokenizer.ts`: complete the stored
snapshot with the tracker's current position and replace the stored snapshot
with the current position. -/
def flushRange (state : State) : RangeWithLocation × State :=
  let snapshot := state.locationTracker.snapshot
  let range := state.locationSnapshot.complete snapshot
  (range, { state with locationSnapshot := snapshot })

/-- `flushBuffer` from `src/internal/tokenizer.ts`: when the buffer is
non-empty, emit it as a token of the given type over the flushed range and
clear it; otherwise do nothing.  The buffer lives inside the mode payload in
this embedding, so it is passed and returned explicitly. -/
def flushBuffer (state : State) (buffer : String) (type : TokenType) :
    State × String × List Token :=
  if buffer.length > 0 then
    let (range, state) := flushRange state
    (state, "", [{ type := type, value := buffer, range := range }])
  else
    (state, buffer, [])

/-- `transitionFromLiteralToEscapeMode` from `src/internal/tokenizer.ts`. -/
def transitionFromLiteralToEscapeMode (state : State) (buffer : String) :
    State × List Token :=
  let (state, _, tokens) := flushBuffer state buffer TokenType.Literal
  ({ state with mode := Mode.escape }, tokens)

/-- `transitionFromLiteralToInterpolationMode` from
`src/internal/tokenizer.ts`. -/
def transitionFromLiteralToInterpolationMode (state : State) (buffer : String) :
    State × List Token :=
  let (state, _, tokens) := flushBuffer state buffer TokenType.Literal
  ({ state with mode := Mode.interpolation "" 1 }, tokens)

/-- `processLiteralCharacter` from `src/internal/tokenizer.ts`. -/
def processLiteralCharacter (state : State) (buffer : String) (character : Char) :
    State × List Token :=
  match character with
  | '\\' => transitionFromLiteralToEscapeMode state buffer
  | '\x7b' => transitionFromLiteralToInterpolationMode state buffer
  | _ => ({ state with mode := Mode.literal (buffer.push character) }, [])

/-- `transitionFromEscapeToLiteralMode` from `src/internal/tokenizer.ts`. -/
def transitionFromEscapeToLiteralMode (state : State) : State :=
  { state with mode := Mode.literal "" }

/-- `processEscapeCharacter` from `src/internal/tokenizer.ts`: `{` and `\`
are emitted bare, anything else is emitted with the backslash re-inserted;
either way the range is flushed and the state returns to literal mode. -/
def processEscapeCharacter (state : State) (character : Char) :
    State × List Token :=
  match character with
  | '\x7b' | '\\' =>
    let (range, state) := flushRange state
    (transitionFromEscapeToLiteralMode state,
      [{ type := TokenType.Literal, value := String.singleton character, range := range }])
  | _ =>
    let (range, state) := flushRange state
    (transitionFromEscapeToLiteralMode state,
      [{ type := TokenType.Literal
         value := String.push (String.singleton '\\') character
         range := range }])

/-- `transitionFromInterpolationToLiteralMode` from
`src/internal/tokenizer.ts`. -/
def transitionFromInterpolationToLiteralMode (state : State) (buffer : String) :
    State × List Token :=
  let (state, _, tokens) := flushBuffer state buffer TokenType.Interpolation
  ({ state with mode := Mode.literal "" }, tokens)

/-- `processInterpolationCharacter` from `src/internal/tokenizer.ts`: `{`
increments the brace counter and is buffered, `}` decrements it and either
closes the interpolation (counter hits 0) or is buffered, anything else is
buffered. -/
def processInterpolationCharacter (state : State) (buffer : String) (n : Int)
    (character : Char) : State × List Token :=
  match character with
  | '\x7b' =>
    ({ state with mode := Mode.interpolation (buffer.push character) (n + 1) }, [])
  | '\x7d' =>
    if n - 1 = 0 then
      transitionFromInterpolationToLiteralMode state buffer
    else
      ({ state with mode := Mode.interpolation (buffer.push character) (n - 1) }, [])
  | _ =>
    ({ state with mode := Mode.interpolation (buffer.push character) n }, [])

/-- `processCharacter` from `src/internal/tokenizer.ts`: track the character
first, then dispatch on the current mode. -/
def processCharacter (state : State) (character : Char) : State × List Token :=
  let state := trackCharacter state character
  match state.mode with
  | Mode.literal buffer => processLiteralCharacter state buffer character
  | Mode.escape => processEscapeCharacter state character
  | Mode.interpolation buffer n => processInterpolationCharacter state buffer n character

/-- The character loop of `tokenizeChunk`, recursing over the chunk's
characters and concatenating the tokens each character produces. -/
def tokenizeChars (state : State) : List Char → State × List Token
  | [] => (state, [])
  | c :: cs =>
    let (state, tokens) := processCharacter state c
    let (stateFinal, rest) := tokenizeChars state cs
    (stateFinal, tokens ++ rest)

/-- `tokenizeChunk` from `src/internal/tokenizer.ts`. -/
def tokenizeChunk (state : State) (chunk : String) : State × List Token :=
  tokenizeChars state chunk.data

/-- The two end-of-input failures thrown by `flushState` in
`src/internal/tokenizer.ts`. -/
inductive TokenizeError where
  | unterminatedEscape
  | unterminatedInterpolation
deriving DecidableEq, Repr

/-- `flushState` from `src/internal/tokenizer.ts`: in literal mode flush the
remaining buffer (if any); escape and interpolation modes are unterminated
and throw. -/
def flushState (state : State) : Except TokenizeError (State × List Token) :=
  match state.mode with
  | Mode.literal buffer =>
    let (state, buffer, tokens) := flushBuffer state buffer TokenType.Literal
    Except.ok ({ state with mode := Mode.literal buffer }, tokens)
  | Mode.escape => Except.error TokenizeError.unterminatedEscape
  | Mode.interpolation _ _ => Except.error TokenizeError.unterminatedInterpolation

/-- `tokenize` from `src/internal/tokenizer.ts`: run every character of the
input through a fresh state, then flush the final state. -/
def tokenize (value : String) : Except TokenizeError (List Token) :=
  let (state, tokens) := tokenizeChunk createState value
  match flushState state with
  | Except.ok (_, rest) => Except.ok (tokens ++ rest)
  | Except.error e => Except.error e

/-- Feeding successive chunks through one shared state: the `transform` calls
of `TokenizerStreamTransformer` in `src/internal/tokenizer.ts`, each of which
runs `tokenizeChunk` on the shared state. -/
def feedChunks (state : State) : List String → State × List Token
  | [] => (state, [])
  | chunk :: chunks =>
    let (state, tokens) := tokenizeChunk state chunk
    let (stateFinal, rest) := feedChunks state chunks
    (stateFinal, tokens ++ rest)

/-- The whole streaming session of `TokenizerStreamTransformer`: `start`
creates the state, each `transform` runs `tokenizeChunk`, and `flush` runs
`flushState`, with errors surfacing on the output side. -/
def tokenizeStream (chunks : List String) : Except TokenizeError (List Token) :=
  let (state, tokens) := feedChunks createState chunks
  match flushState state with
  | Except.ok (_, rest) => Except.ok (tokens ++ rest)
  | Except.error e => Except.error e

end Tokenizer

namespace TokenCompressor

/-- The compressor state, from `State` in `token_compressor.ts`: at most one
pending token that has been handed over but not yet emitted. -/
structure State where
  lastToken : Option Token
deriving DecidableEq, Repr

/-- `flushState` from `token_compressor.ts`: emit the pending token, if
any. -/
def flushState (state : State) : State × List Token :=
  match state.lastToken with
  | some lastToken => ({ lastToken := none }, [lastToken])
  | none => (state, [])

/-- `processToken` from `token_compressor.ts`: flush the pending token when
the incoming one has a different type or is not offset-adjacent; merge via
`Token.concat` when the pending token matches type and adjacency; otherwise
hold back a Literal incoming token and emit any other kind immediately.  The
source's fall-through from its second `if` to its `switch` is spelled out as
the two identical `match` arms below. -/
def processToken (state : State) (nextToken : Token) :
    Except ConcatError (State × List Token) :=
  let flushed :=
    match state.lastToken with
    | some lastToken =>
      if lastToken.type ≠ nextToken.type ∨ lastToken.range.stop ≠ nextToken.range.start then
        flushState state
      else
        (state, [])
    | none => (state, [])
  match flushed.1.lastToken with
  | some lastToken =>
    if lastToken.type = nextToken.type ∧ lastToken.range.stop = nextToken.range.start then
      match lastToken.concat nextToken with
      | Except.ok merged => Except.ok ({ lastToken := some merged }, flushed.2)
      | Except.error e => Except.error e
    else
      match nextToken.type with
      | TokenType.Literal => Except.ok ({ lastToken := some nextToken }, flushed.2)
      | TokenType.Interpolation => Except.ok (flushed.1, flushed.2 ++ [nextToken])
  | none =>
    match nextToken.type with
    | TokenType.Literal => Except.ok ({ lastToken := some nextToken }, flushed.2)
    | TokenType.Interpolation => Except.ok (flushed.1, flushed.2 ++ [nextToken])

/-- The token loop of `compressTokens`, threading the state through
`processToken` and concatenating the produced tokens. -/
def runTokens (state : State) : List Token → Except ConcatError (State × List Token)
  | [] => Except.ok (state, [])
  | t :: ts =>
    match processToken state t with
    | Except.ok (state, produced) =>
      match runTokens state ts with
      | Except.ok (stateFinal, rest) => Except.ok (stateFinal, produced ++ rest)
      | Except.error e => Except.error e
    | Except.error e => Except.error e

/-- `compressTokens` from `token_compressor.ts`: run every token through the
state, then flush the pending token. -/
def compressTokens (tokens : List Token) : Except ConcatError (List Token) :=
  match runTokens { lastToken := none } tokens with
  | Except.ok (state, output) =>
    let (_, flushed) := flushState state
    Except.ok (output ++ flushed)
  | Except.error e => Except.error e

end TokenCompressor

/-- Two tokens the compressor is prepared to merge when they meet: both are
Literal and the first stops exactly where the second starts. -/
def litAdj (a b : Token) : Prop :=
  a.type = TokenType.Literal ∧ b.type = TokenType.Literal ∧
    a.range.stop = b.range.start

/-- A token list in the compressor's normal form: no consecutive pair is a
mergeable (both-Literal, offset-adjacent) pair. -/
def compressed (ts : List Token) : Prop :=
  List.Chain' (fun a b => ¬ litAdj a b) ts

/-- Invariant of the compressor loop: the output emitted so far followed by
the pending token is in normal form, a pending token is always Literal, and
when nothing is pending the last emitted token (if any) was an
Interpolation. -/
def TokenCompressor.Inv (state : TokenCompressor.State) (out : List Token) : Prop :=
  compressed (out ++ state.lastToken.toList) ∧
  (∀ p, state.lastToken = some p → p.type = TokenType.Literal) ∧
  (state.lastToken = none →
    ∀ t, out.getLast? = some t → t.type = TokenType.Interpolation)

/-- `chainedFrom o ts o'`: the ranges of `ts` tile the offsets from `o` to
`o'` with no gaps — the first token starts at `o`, every later token starts
where its predecessor stopped, and the last token stops at `o'`. -/
def chainedFrom : Nat → List Token → Nat → Prop
  | o, [], o' => o' = o
  | o, t :: ts, o' => t.range.start = o ∧ chainedFrom t.range.stop ts o'

/-! Basic facts about the tokenizer state machine. -/

namespace Tokenizer

theorem trackCharacter_mode (state : State) (character : Char) :
    (trackCharacter state character).mode = state.mode := by
  unfold trackCharacter
  split <;> rfl

theorem trackCharacter_locationSnapshot (state : State) (character : Char) :
    (trackCharacter state character).locationSnapshot = state.locationSnapshot := by
  unfold trackCharacter
  split <;> rfl

theorem flushBuffer_locationTracker (state : State) (buffer : String)
    (type : TokenType) :
    (flushBuffer state buffer type).1.locationTracker = state.locationTracker := by
  unfold flushBuffer flushRange
  split <;> rfl

theorem transitionFromLiteralToEscapeMode_locationTracker (state : State)
    (buffer : String) :
    (transitionFromLiteralToEscapeMode state buffer).1.locationTracker =
      state.locationTracker := by
  unfold transitionFromLiteralToEscapeMode
  have h := flushBuffer_locationTracker state buffer TokenType.Literal
  rcases hfb : flushBuffer state buffer TokenType.Literal with ⟨st2, b2, ts2⟩
  rw [hfb] at h
  exact h

theorem transitionFromLiteralToInterpolationMode_locationTracker (state : State)
    (buffer : String) :
    (transitionFromLiteralToInterpolationMode state buffer).1.locationTracker =
      state.locationTracker := by
  unfold transitionFromLiteralToInterpolationMode
  have h := flushBuffer_locationTracker state buffer TokenType.Literal
  rcases hfb : flushBuffer state buffer TokenType.Literal with ⟨st2, b2, ts2⟩
  rw [hfb] at h
  exact h

theorem transitionFromInterpolationToLiteralMode_locationTracker (state : State)
    (buffer : String) :
    (transitionFromInterpolationToLiteralMode state buffer).1.locationTracker =
      state.locationTracker := by
  unfold transitionFromInterpolationToLiteralMode
  have h := flushBuffer_locationTracker state buffer TokenType.Interpolation
  rcases hfb : flushBuffer state buffer TokenType.Interpolation with ⟨st2, b2, ts2⟩
  rw [hfb] at h
  exact h

theorem processLiteralCharacter_locationTracker (state : State) (buffer : String)
    (character : Char) :
    (processLiteralCharacter state buffer character).1.locationTracker =
      state.locationTracker := by
  unfold processLiteralCharacter
  split
  · exact transitionFromLiteralToEscapeMode_locationTracker state buffer
  · exact transitionFromLiteralToInterpolationMode_locationTracker state buffer
  · rfl

theorem processEscapeCharacter_locationTracker (state : State) (character : Char) :
    (processEscapeCharacter state character).1.locationTracker =
      state.locationTracker := by
  unfold processEscapeCharacter flushRange transitionFromEscapeToLiteralMode
  split <;> rfl

theorem processInterpolationCharacter_locationTracker (state : State)
    (buffer : String) (n : Int) (character : Char) :
    (processInterpolationCharacter state buffer n character).1.locationTracker =
      state.locationTracker := by
  unfold processInterpolationCharacter
  split
  · rfl
  · split
    · exact transitionFromInterpolationToLiteralMode_locationTracker state buffer
    · rfl
  · rfl

theorem processCharacter_locationTracker (state : State) (character : Char) :
    (processCharacter state character).1.locationTracker =
      (trackCharacter state character).locationTracker := by
  unfold processCharacter
  rcases hts : trackCharacter state character with ⟨tr2, snap2, mode2⟩
  rcases mode2 with buffer | _ | ⟨buffer, n⟩
  · exact processLiteralCharacter_locationTracker ⟨tr2, snap2, Mode.literal buffer⟩
      buffer character
  · exact processEscapeCharacter_locationTracker ⟨tr2, snap2, Mode.escape⟩ character
  · exact processInterpolationCharacter_locationTracker
      ⟨tr2, snap2, Mode.interpolation buffer n⟩ buffer n character

theorem flushState_escape (tr : LocationTracker) (snap : LocationSnapshot) :
    flushState ⟨tr, snap, Mode.escape⟩ =
      Except.error TokenizeError.unterminatedEscape := rfl

theorem flushState_interpolation (tr : LocationTracker) (snap : LocationSnapshot)
    (buffer : String) (n : Int) :
    flushState ⟨tr, snap, Mode.interpolation buffer n⟩ =
      Except.error TokenizeError.unterminatedInterpolation := rfl

theorem flushState_literal_ok (tr : LocationTracker) (snap : LocationSnapshot)
    (buffer : String) :
    ∃ st ts, flushState ⟨tr, snap, Mode.literal buffer⟩ = Except.ok (st, ts) := by
  unfold flushState flushBuffer
  dsimp only
  split
  · exact ⟨_, _, rfl⟩
  · exact ⟨_, _, rfl⟩

end Tokenizer

open Tokenizer TokenCompressor

/-- Claim C1: for the 42-character input `Hello \{world} How are you,
{firstName{}}?` (single backslash before the first opening brace),
`compressTokens (tokenize input)` returns exactly three tokens in order:
Literal `Hello {world} How are you, `, Interpolation `firstName{}`, and
Literal `?`. -/
theorem claim1_compressed_example :
    ("Hello \\\x7bworld\x7d How are you, \x7bfirstName\x7b\x7d\x7d?".length = 42) ∧
    ∃ ts out,
      tokenize "Hello \\\x7bworld\x7d How are you, \x7bfirstName\x7b\x7d\x7d?" =
        Except.ok ts ∧
      compressTokens ts = Except.ok out ∧
      out.map (fun t => (t.type, t.value)) =
        [(TokenType.Literal, "Hello \x7bworld\x7d How are you, "),
         (TokenType.Interpolation, "firstName\x7b\x7d"),
         (TokenType.Literal, "?")] := by
  exact ⟨by decide, _, _, rfl, rfl, by decide⟩

/-- Claim C2: `tokenize` fails exactly when the state machine is not in
literal mode after consuming the whole input — `UnterminatedEscape` when the
final mode is escape, `UnterminatedInterpolation` when it is interpolation —
and returns normally when the final mode is literal; in particular
`tokenize "foo\x7bbar"` fails with `UnterminatedInterpolation` and
`tokenize "foo\\"` fails with `UnterminatedEscape`. -/
theorem claim2_error_iff_final_mode :
    (∀ s : String, (tokenizeChunk createState s).1.mode.isLiteral = true →
      ∃ ts, tokenize s = Except.ok ts) ∧
    (∀ s : String, (tokenizeChunk createState s).1.mode.isEscape = true →
      tokenize s = Except.error TokenizeError.unterminatedEscape) ∧
    (∀ s : String, (tokenizeChunk createState s).1.mode.isInterpolation = true →
      tokenize s = Except.error TokenizeError.unterminatedInterpolation) ∧
    tokenize "foo\x7bbar" = Except.error TokenizeError.unterminatedInterpolation ∧
    tokenize "foo\\" = Except.error TokenizeError.unterminatedEscape := by
  have main : ∀ s : String, tokenize s =
      match Tokenizer.flushState (tokenizeChunk createState s).1 with
      | Except.ok (_, rest) => Except.ok ((tokenizeChunk createState s).2 ++ rest)
      | Except.error e => Except.error e := by
    intro s
    unfold tokenize
    rcases tokenizeChunk createState s with ⟨st, ts⟩
    rfl
  refine ⟨fun s h => ?_, fun s h => ?_, fun s h => ?_, rfl, rfl⟩
  · rw [main]
    rcases hst : (tokenizeChunk createState s).1 with ⟨tr, snap, mode⟩
    rw [hst] at h
    rcases mode with buffer | _ | ⟨buffer, n⟩
    · obtain ⟨st', ts', hok⟩ := flushState_literal_ok tr snap buffer
      exact ⟨_, by rw [hok]⟩
    · simp [Mode.isLiteral] at h
    · simp [Mode.isLiteral] at h
  · rw [main]
    rcases hst : (tokenizeChunk createState s).1 with ⟨tr, snap, mode⟩
    rw [hst] at h
    rcases mode with buffer | _ | ⟨buffer, n⟩
    · simp [Mode.isEscape] at h
    · rw [flushState_escape]
    · simp [Mode.isEscape] at h
  · rw [main]
    rcases hst : (tokenizeChunk createState s).1 with ⟨tr, snap, mode⟩
    rw [hst] at h
    rcases mode with buffer | _ | ⟨buffer, n⟩
    · simp [Mode.isInterpolation] at h
    · simp [Mode.isInterpolation] at h
    · rw [flushState_interpolation]

/-- Closed instance of claim C2, applying the theorem at the inputs `"hi"`. -/
theorem claim2_witness : ∃ ts, tokenize "hi" = Except.ok ts :=
  claim2_error_iff_final_mode.1 "hi" (by decide)

/-- Claim C3: processing any character `c` in escape mode emits exactly one
Literal token and returns to literal mode with an empty buffer; the token's
value is `c` itself for `\x7b` and backslash, and backslash-then-`c`
otherwise; its range runs from the snapshot the state holds on escape entry
to the position just after `c`, and that position becomes the new stored
snapshot. -/
theorem claim3_escape_step (state : Tokenizer.State) (character : Char)
    (h : state.mode = Mode.escape) :
    processCharacter state character =
      ({ locationTracker := (trackCharacter state character).locationTracker
         locationSnapshot := (trackCharacter state character).locationTracker.snapshot
         mode := Mode.literal "" },
       [{ type := TokenType.Literal
          value :=
            if character = '\x7b' ∨ character = '\\' then String.singleton character
            else String.push (String.singleton '\\') character
          range := state.locationSnapshot.complete
            (trackCharacter state character).locationTracker.snapshot }]) := by
  have hm : (trackCharacter state character).mode = Mode.escape := by
    rw [trackCharacter_mode, h]
  have hsnap := trackCharacter_locationSnapshot state character
  unfold processCharacter
  rcases hts : trackCharacter state character with ⟨tr2, snap2, mode2⟩
  rw [hts] at hm hsnap
  dsimp at hm hsnap
  subst hm
  subst hsnap
  unfold processEscapeCharacter flushRange transitionFromEscapeToLiteralMode
  dsimp only
  split
  · simp_all
  · simp_all
  · rename_i h1 h2
    rw [if_neg (by rintro (hx | hx) <;> [exact h1 hx; exact h2 hx])]

/-- Closed instance of claim C3, applying the theorem at a concrete escape
state and the character `x`. -/
theorem claim3_witness :
    processCharacter ⟨⟨5, 1, 5⟩, ⟨4, 1, 4⟩, Mode.escape⟩ 'x' =
      (⟨⟨6, 1, 6⟩, ⟨6, 1, 6⟩, Mode.literal ""⟩,
       [{ type := TokenType.Literal
          value := "\\x"
          range := ⟨4, 6, ⟨1, 4⟩, ⟨1, 6⟩⟩ }]) := by
  have h := claim3_escape_step ⟨⟨5, 1, 5⟩, ⟨4, 1, 4⟩, Mode.escape⟩ 'x' rfl
  simpa using h

/-- Claim C4: `tokenize "\x7ba\x7bb\x7dc\x7d"` returns exactly one token, an
Interpolation token with value `a\x7bb\x7dc`; in interpolation mode an
opening brace increments the brace counter and is buffered, a closing brace
decrements it and is buffered unless the counter reaches 0, and the
interpolation is flushed exactly when the counter reaches 0. -/
theorem claim4_brace_nesting :
    ((tokenize "\x7ba\x7bb\x7dc\x7d").map (List.map fun t => (t.type, t.value)) =
      Except.ok [(TokenType.Interpolation, "a\x7bb\x7dc")]) ∧
    ∀ (state : Tokenizer.State) (buffer : String) (n : Int),
      (processInterpolationCharacter state buffer n '\x7b' =
        ({ state with mode := Mode.interpolation (buffer.push '\x7b') (n + 1) }, [])) ∧
      (n - 1 ≠ 0 → processInterpolationCharacter state buffer n '\x7d' =
        ({ state with mode := Mode.interpolation (buffer.push '\x7d') (n - 1) }, [])) ∧
      (n - 1 = 0 → processInterpolationCharacter state buffer n '\x7d' =
        transitionFromInterpolationToLiteralMode state buffer) := by
  refine ⟨rfl, fun state buffer n => ⟨rfl, fun h => ?_, fun h => ?_⟩⟩
  · unfold processInterpolationCharacter
    rw [if_neg h]
    rfl
  · unfold processInterpolationCharacter
    rw [if_pos h]
    rfl


/-- Closed instance of claim C4, applying the theorem at a concrete
interpolation state with brace counter 2 and then 1. -/
theorem claim4_witness :
    (processInterpolationCharacter ⟨⟨3, 1, 3⟩, ⟨0, 1, 0⟩, Mode.interpolation "ab" 2⟩
        "ab" 2 '\x7d' =
      (⟨⟨3, 1, 3⟩, ⟨0, 1, 0⟩, Mode.interpolation "ab\x7d" 1⟩, [])) ∧
    (processInterpolationCharacter ⟨⟨4, 1, 4⟩, ⟨0, 1, 0⟩, Mode.interpolation "ab\x7d" 1⟩
        "ab\x7d" 1 '\x7d' =
      transitionFromInterpolationToLiteralMode
        ⟨⟨4, 1, 4⟩, ⟨0, 1, 0⟩, Mode.interpolation "ab\x7d" 1⟩ "ab\x7d") := by
  constructor
  · have h := (claim4_brace_nesting.2 ⟨⟨3, 1, 3⟩, ⟨0, 1, 0⟩, Mode.interpolation "ab" 2⟩
      "ab" 2).2.1 (by decide)
    simpa using h
  · exact (claim4_brace_nesting.2 ⟨⟨4, 1, 4⟩, ⟨0, 1, 0⟩, Mode.interpolation "ab\x7d" 1⟩
      "ab\x7d" 1).2.2 (by decide)

/-- Claim C5: for every character and every tokenizer state, position
tracking happens before (and independently of) mode-specific handling — the
tracker after `processCharacter` is exactly the tracker after
`trackCharacter` — and the per-character classification is: newline
increments offset and line and resets column to 0, carriage return
increments the offset only, and every other character increments offset and
column. -/
theorem claim5_position_tracking (state : Tokenizer.State) (character : Char) :
    ((processCharacter state character).1.locationTracker =
      (trackCharacter state character).locationTracker) ∧
    (character = '\n' → (trackCharacter state character).locationTracker =
      ⟨state.locationTracker.offset + 1, state.locationTracker.line + 1, 0⟩) ∧
    (character = '\r' → (trackCharacter state character).locationTracker =
      ⟨state.locationTracker.offset + 1, state.locationTracker.line,
        state.locationTracker.column⟩) ∧
    (character ≠ '\n' → character ≠ '\r' →
      (trackCharacter state character).locationTracker =
      ⟨state.locationTracker.offset + 1, state.locationTracker.line,
        state.locationTracker.column + 1⟩) := by
  refine ⟨processCharacter_locationTracker state character, fun h => ?_,
    fun h => ?_, fun h1 h2 => ?_⟩
  · subst h
    rfl
  · subst h
    rfl
  · unfold trackCharacter
    rcases hc : character with ⟨cv⟩
    rw [← hc]
    split
    · exact absurd rfl h1
    · exact absurd rfl h2
    · rfl

/-- Closed instance of claim C5, applying the theorem at `createState` and a
carriage return, and at a plain character. -/
theorem claim5_witness :
    (trackCharacter createState '\r').locationTracker = ⟨1, 1, 0⟩ ∧
    (trackCharacter createState 'a').locationTracker = ⟨1, 1, 1⟩ := by
  constructor
  · have h := (claim5_position_tracking createState '\r').2.2.1 rfl
    simpa using h
  · have h := (claim5_position_tracking createState 'a').2.2.2 (by decide) (by decide)
    simpa using h

/-- Claim C6: `Token.concat` succeeds exactly when the two tokens have equal
types and the first token's range end equals the second's range start; on
success the value is the concatenation and the range spans from the first
token's start offset/location to the second's end offset/location; otherwise
it fails with `IncompatibleConcat`.  Concretely, Literal `foo` over `[0,3)`
concatenated with Literal `bar` over `[3,6)` gives Literal `foobar` over
`[0,6)`, and tokens over `[0,3)` and `[4,7)` fail. -/
theorem claim6_concat :
    (∀ a b : Token, a.type = b.type → a.range.stop = b.range.start →
      a.concat b = Except.ok
        { type := a.type
          value := a.value ++ b.value
          range :=
            { start := a.range.start
              stop := b.range.stop
              startLocation := a.range.startLocation
              endLocation := b.range.endLocation } }) ∧
    (∀ a b : Token, a.type ≠ b.type ∨ a.range.stop ≠ b.range.start →
      a.concat b = Except.error ConcatError.incompatibleConcat) ∧
    (Token.concat ⟨TokenType.Literal, "foo", ⟨0, 3, ⟨1, 0⟩, ⟨1, 3⟩⟩⟩
        ⟨TokenType.Literal, "bar", ⟨3, 6, ⟨1, 3⟩, ⟨1, 6⟩⟩⟩ =
      Except.ok ⟨TokenType.Literal, "foobar", ⟨0, 6, ⟨1, 0⟩, ⟨1, 6⟩⟩⟩) ∧
    (Token.concat ⟨TokenType.Literal, "foo", ⟨0, 3, ⟨1, 0⟩, ⟨1, 3⟩⟩⟩
        ⟨TokenType.Literal, "bar", ⟨4, 7, ⟨1, 4⟩, ⟨1, 7⟩⟩⟩ =
      Except.error ConcatError.incompatibleConcat) := by
  refine ⟨fun a b h1 h2 => ?_, fun a b h => ?_, rfl, rfl⟩
  · unfold Token.concat
    rw [if_pos ⟨h1, h2⟩]
  · unfold Token.concat
    rw [if_neg]
    rintro ⟨h1, h2⟩
    rcases h with h | h
    · exact h h1
    · exact h h2

/-- Closed instance of claim C6, applying the theorem's success case at two
adjacent Interpolation tokens. -/
theorem claim6_witness :
    Token.concat ⟨TokenType.Interpolation, "x", ⟨2, 5, ⟨1, 2⟩, ⟨1, 5⟩⟩⟩
        ⟨TokenType.Interpolation, "y", ⟨5, 7, ⟨1, 5⟩, ⟨1, 7⟩⟩⟩ =
      Except.ok ⟨TokenType.Interpolation, "xy", ⟨2, 7, ⟨1, 2⟩, ⟨1, 7⟩⟩⟩ := by
  have h := claim6_concat.1 ⟨TokenType.Interpolation, "x", ⟨2, 5, ⟨1, 2⟩, ⟨1, 5⟩⟩⟩
    ⟨TokenType.Interpolation, "y", ⟨5, 7, ⟨1, 5⟩, ⟨1, 7⟩⟩⟩ rfl rfl
  simpa using h

/-! Case analysis of `processToken`: one lemma per reachable branch. -/

namespace TokenCompressor

theorem processToken_none_literal (state : State) (next : Token)
    (h : state.lastToken = none) (ht : next.type = TokenType.Literal) :
    processToken state next = Except.ok ({ lastToken := some next }, []) := by
  rcases state with ⟨last⟩
  dsimp only at h
  subst h
  rcases next with ⟨ty, v, r⟩
  dsimp only at ht
  subst ht
  rfl

theorem processToken_none_interpolation (state : State) (next : Token)
    (h : state.lastToken = none) (ht : next.type = TokenType.Interpolation) :
    processToken state next = Except.ok ({ lastToken := none }, [next]) := by
  rcases state with ⟨last⟩
  dsimp only at h
  subst h
  rcases next with ⟨ty, v, r⟩
  dsimp only at ht
  subst ht
  rfl

theorem processToken_flush_literal (state : State) (next p : Token)
    (h : state.lastToken = some p)
    (hg : p.type ≠ next.type ∨ p.range.stop ≠ next.range.start)
    (ht : next.type = TokenType.Literal) :
    processToken state next = Except.ok ({ lastToken := some next }, [p]) := by
  rcases state with ⟨last⟩
  dsimp only at h
  subst h
  rcases next with ⟨ty, v, r⟩
  dsimp only at ht hg
  subst ht
  unfold processToken
  dsimp only
  rw [if_pos hg]
  rfl

theorem processToken_flush_interpolation (state : State) (next p : Token)
    (h : state.lastToken = some p)
    (hg : p.type ≠ next.type ∨ p.range.stop ≠ next.range.start)
    (ht : next.type = TokenType.Interpolation) :
    processToken state next = Except.ok ({ lastToken := none }, [p, next]) := by
  rcases state with ⟨last⟩
  dsimp only at h
  subst h
  rcases next with ⟨ty, v, r⟩
  dsimp only at ht hg
  subst ht
  unfold processToken
  dsimp only
  rw [if_pos hg]
  rfl

theorem processToken_merge (state : State) (next p : Token)
    (h : state.lastToken = some p)
    (h1 : p.type = next.type) (h2 : p.range.stop = next.range.start) :
    processToken state next = Except.ok
      ({ lastToken := some ⟨p.type, p.value ++ next.value,
          ⟨p.range.start, next.range.stop, p.range.startLocation,
            next.range.endLocation⟩⟩ }, []) := by
  rcases state with ⟨last⟩
  dsimp only at h
  subst h
  unfold processToken
  dsimp only
  rw [if_neg (not_or.mpr ⟨fun hh => hh h1, fun hh => hh h2⟩)]
  dsimp only
  rw [if_pos ⟨h1, h2⟩]
  unfold Token.concat
  rw [if_pos ⟨h1, h2⟩]

theorem flushState_eq (state : State) :
    flushState state = ({ lastToken := none }, state.lastToken.toList) := by
  rcases state with ⟨_ | p⟩ <;> rfl

theorem processToken_ok (state : State) (next : Token) :
    ∃ result, processToken state next = Except.ok result := by
  rcases hlast : state.lastToken with _ | p
  · rcases ht : next.type
    · exact ⟨_, processToken_none_literal state next hlast ht⟩
    · exact ⟨_, processToken_none_interpolation state next hlast ht⟩
  · by_cases hg : p.type ≠ next.type ∨ p.range.stop ≠ next.range.start
    · rcases ht : next.type
      · exact ⟨_, processToken_flush_literal state next p hlast hg ht⟩
      · exact ⟨_, processToken_flush_interpolation state next p hlast hg ht⟩
    · rw [not_or, not_not, not_not] at hg
      exact ⟨_, processToken_merge state next p hlast hg.1 hg.2⟩

theorem runTokens_ok (ts : List Token) : ∀ state : State,
    ∃ result, runTokens state ts = Except.ok result := by
  induction ts with
  | nil => exact fun state => ⟨(state, []), rfl⟩
  | cons t ts ih =>
    intro state
    obtain ⟨r, hr⟩ := processToken_ok state t
    rcases r with ⟨st1, produced⟩
    obtain ⟨r2, hrun⟩ := ih st1
    rcases r2 with ⟨st2, rest⟩
    exact ⟨(st2, produced ++ rest), by simp [runTokens, hr, hrun]⟩

end TokenCompressor

/-- Claim C9: every call to `Token.concat` made inside `compressTokens`
satisfies concat's preconditions, so the `IncompatibleConcat` failure is
unreachable from within the compressor — `processToken` and `compressTokens`
always return successfully, for every state and every token list. -/
theorem claim9_concat_preconditions :
    (∀ (state : TokenCompressor.State) (next : Token),
      ∃ result, processToken state next = Except.ok result) ∧
    (∀ ts : List Token, ∃ out, compressTokens ts = Except.ok out) := by
  refine ⟨processToken_ok, fun ts => ?_⟩
  obtain ⟨r, hrun⟩ := runTokens_ok ts { lastToken := none }
  rcases r with ⟨st, output⟩
  exact ⟨output ++ st.lastToken.toList,
    by simp [compressTokens, hrun, TokenCompressor.flushState_eq]⟩

/-! The compressor's output is in normal form, and normal-form input is a
fixed point of `compressTokens`. -/

theorem interpolation_ne_literal {t : Token}
    (h : t.type = TokenType.Interpolation) : t.type ≠ TokenType.Literal := by
  rw [h]
  exact fun hh => TokenType.noConfusion hh

theorem compressed_append_singleton {out : List Token} {t : Token}
    (hc : compressed out)
    (hb : ∀ x, out.getLast? = some x → ¬ litAdj x t) :
    compressed (out ++ [t]) := by
  refine List.Chain'.append hc (List.chain'_singleton t) ?_
  intro x hx y hy
  simp only [List.head?_cons, Option.mem_def, Option.some.injEq] at hy
  subst hy
  exact hb x (Option.mem_def.mp hx)

namespace TokenCompressor

theorem processToken_inv (state : State) (out : List Token) (next : Token)
    (h : Inv state out) :
    ∃ state' produced, processToken state next = Except.ok (state', produced) ∧
      Inv state' (out ++ produced) := by
  obtain ⟨hc, hlit, hint⟩ := h
  rcases hlast : state.lastToken with _ | p
  · rw [hlast] at hc hint
    simp only [Option.toList_none, List.append_nil] at hc
    have hint' := hint rfl
    rcases ht : next.type
    · refine ⟨_, _, processToken_none_literal state next hlast ht, ?_, ?_, ?_⟩
      · simp only [List.append_nil, Option.toList_some]
        exact compressed_append_singleton hc fun x hx hadj =>
          interpolation_ne_literal (hint' x hx) hadj.1
      · intro q hq
        simp only [Option.some.injEq] at hq
        rw [← hq, ht]
      · intro hnone
        exact absurd hnone (by simp)
    · refine ⟨_, _, processToken_none_interpolation state next hlast ht, ?_, ?_, ?_⟩
      · simp only [Option.toList_none, List.append_nil]
        exact compressed_append_singleton hc fun x hx hadj =>
          interpolation_ne_literal (hint' x hx) hadj.1
      · intro q hq
        exact absurd hq (by simp)
      · intro _ t htl
        rw [List.getLast?_concat] at htl
        simp only [Option.some.injEq] at htl
        rw [← htl, ht]
  · rw [hlast] at hc
    simp only [Option.toList_some] at hc
    have hp := hlit p hlast
    rcases ht : next.type
    · by_cases hadj : p.range.stop = next.range.start
      · refine ⟨_, _, processToken_merge state next p hlast (hp.trans ht.symm) hadj,
          ?_, ?_, ?_⟩
        · simp only [List.append_nil, Option.toList_some]
          unfold compressed at hc ⊢
          rw [List.chain'_append] at hc ⊢
          refine ⟨hc.1, List.chain'_singleton _, ?_⟩
          intro x hx y hy
          simp only [List.head?_cons, Option.mem_def, Option.some.injEq] at hy
          subst hy
          intro hbad
          exact hc.2.2 x hx p (by simp) ⟨hbad.1, hp, hbad.2.2⟩
        · intro q hq
          simp only [Option.some.injEq] at hq
          rw [← hq]
          exact hp
        · intro hnone
          exact absurd hnone (by simp)
      · refine ⟨_, _,
          processToken_flush_literal state next p hlast (Or.inr hadj) ht, ?_, ?_, ?_⟩
        · simp only [Option.toList_some, List.append_assoc]
          rw [← List.append_assoc]
          exact compressed_append_singleton hc fun x hx hbad => by
            rw [List.getLast?_concat] at hx
            simp only [Option.some.injEq] at hx
            subst hx
            exact hadj hbad.2.2
        · intro q hq
          simp only [Option.some.injEq] at hq
          rw [← hq, ht]
        · intro hnone
          exact absurd hnone (by simp)
    · have hg : p.type ≠ next.type := by
        rw [hp, ht]
        exact fun hh => TokenType.noConfusion hh
      refine ⟨_, _,
        processToken_flush_interpolation state next p hlast (Or.inl hg) ht, ?_, ?_, ?_⟩
      · simp only [Option.toList_none, List.append_nil]
        have : out ++ [p, next] = (out ++ [p]) ++ [next] := by simp
        rw [this]
        exact compressed_append_singleton hc fun x hx hbad => by
          rw [List.getLast?_concat] at hx
          simp only [Option.some.injEq] at hx
          subst hx
          exact hg (hbad.1.trans hbad.2.1.symm)
      · intro q hq
        exact absurd hq (by simp)
      · intro _ t htl
        have : out ++ [p, next] = (out ++ [p]) ++ [next] := by simp
        rw [this, List.getLast?_concat] at htl
        simp only [Option.some.injEq] at htl
        rw [← htl, ht]

theorem runTokens_inv (ts : List Token) : ∀ (state : State) (out : List Token),
    Inv state out →
    ∃ state' produced, runTokens state ts = Except.ok (state', produced) ∧
      Inv state' (out ++ produced) := by
  induction ts with
  | nil =>
    intro state out h
    exact ⟨state, [], rfl, by simpa using h⟩
  | cons t ts ih =>
    intro state out h
    obtain ⟨st1, produced, hstep, hinv1⟩ := processToken_inv state out t h
    obtain ⟨st2, rest, hrun, hinv2⟩ := ih st1 (out ++ produced) hinv1
    refine ⟨st2, produced ++ rest, by simp [runTokens, hstep, hrun], ?_⟩
    rw [← List.append_assoc]
    exact hinv2

theorem compressTokens_compressed (ts out : List Token)
    (h : compressTokens ts = Except.ok out) : compressed out := by
  have hinv0 : Inv { lastToken := none } [] := by
    refine ⟨by simp [compressed], ?_, ?_⟩
    · intro p hp
      exact absurd hp (by simp)
    · intro _ t ht
      exact absurd ht (by simp)
  obtain ⟨st, produced, hrun, hinv⟩ := runTokens_inv ts { lastToken := none } [] hinv0
  unfold compressTokens at h
  rw [hrun] at h
  dsimp only at h
  rw [flushState_eq] at h
  simp only [Except.ok.injEq] at h
  rw [← h]
  simpa using hinv.1

theorem runTokens_fixed (ts : List Token) : ∀ pend : Option Token,
    (∀ p, pend = some p → p.type = TokenType.Literal) →
    compressed (pend.toList ++ ts) →
    ∃ state' out, runTokens ⟨pend⟩ ts = Except.ok (state', out) ∧
      out ++ state'.lastToken.toList = pend.toList ++ ts := by
  induction ts with
  | nil =>
    intro pend hp hc
    exact ⟨⟨pend⟩, [], rfl, by simp⟩
  | cons a ts ih =>
    intro pend hp hc
    rcases pend with _ | p
    · simp only [Option.toList_none, List.nil_append] at hc ⊢
      rcases ht : a.type
      · obtain ⟨st', out, hrun, heq⟩ := ih (some a)
          (fun q hq => by simp only [Option.some.injEq] at hq; rw [← hq, ht])
          (by simpa using hc)
        refine ⟨st', out, by simp [runTokens, processToken_none_literal ⟨none⟩ a rfl ht,
          hrun], ?_⟩
        simpa using heq
      · obtain ⟨st', out, hrun, heq⟩ := ih none (fun q hq => by cases hq)
          (by simpa using hc.tail)
        refine ⟨st', a :: out,
          by simp [runTokens, processToken_none_interpolation ⟨none⟩ a rfl ht, hrun], ?_⟩
        simpa using heq
    · have hpL := hp p rfl
      simp only [Option.toList_some, List.singleton_append] at hc
      have hpa : ¬ litAdj p a := (List.chain'_cons.mp hc).1
      have hc' : compressed (a :: ts) := (List.chain'_cons.mp hc).2
      rcases ht : a.type
      · have hadj : p.range.stop ≠ a.range.start := fun he => hpa ⟨hpL, ht, he⟩
        obtain ⟨st', out, hrun, heq⟩ := ih (some a)
          (fun q hq => by simp only [Option.some.injEq] at hq; rw [← hq, ht])
          (by simpa using hc')
        refine ⟨st', p :: out, by simp [runTokens,
          processToken_flush_literal ⟨some p⟩ a p rfl (Or.inr hadj) ht, hrun], ?_⟩
        simpa using heq
      · have hg : p.type ≠ a.type := by
          rw [hpL, ht]
          exact fun hh => TokenType.noConfusion hh
        obtain ⟨st', out, hrun, heq⟩ := ih none (fun q hq => by cases hq)
          (by simpa using hc'.tail)
        refine ⟨st', p :: a :: out, by simp [runTokens,
          processToken_flush_interpolation ⟨some p⟩ a p rfl (Or.inl hg) ht, hrun], ?_⟩
        simpa using heq

theorem compressTokens_fixed (ts : List Token) (h : compressed ts) :
    compressTokens ts = Except.ok ts := by
  obtain ⟨st', out, hrun, heq⟩ := runTokens_fixed ts none (fun q hq => by cases hq)
    (by simpa using h)
  unfold compressTokens
  rw [hrun]
  dsimp only
  rw [flushState_eq]
  simp only [Except.ok.injEq]
  simpa using heq

end TokenCompressor

/-- Claim C7: `compressTokens` is idempotent — compressing an
already-compressed token sequence changes nothing, token for token
(type, value and range included). -/
theorem claim7_compress_idempotent (ts out : List Token)
    (h : compressTokens ts = Except.ok out) :
    compressTokens out = Except.ok out :=
  TokenCompressor.compressTokens_fixed out
    (TokenCompressor.compressTokens_compressed ts out h)

/-! Chunked feeding is equivalent to whole-string tokenization. -/

namespace Tokenizer

theorem tokenizeChars_append : ∀ (l₁ : List Char) (l₂ : List Char)
    (state st1 st2 : State) (t1 t2 : List Token),
    tokenizeChars state l₁ = (st1, t1) →
    tokenizeChars st1 l₂ = (st2, t2) →
    tokenizeChars state (l₁ ++ l₂) = (st2, t1 ++ t2) := by
  intro l₁
  induction l₁ with
  | nil =>
    intro l₂ state st1 st2 t1 t2 h1 h2
    cases h1
    simpa using h2
  | cons c cs ih =>
    intro l₂ state st1 st2 t1 t2 h1 h2
    rcases hp : processCharacter state c with ⟨sa, ta⟩
    rcases hr : tokenizeChars sa cs with ⟨sb, tb⟩
    have h1' : tokenizeChars state (c :: cs) = (sb, ta ++ tb) := by
      simp [tokenizeChars, hp, hr]
    rw [h1'] at h1
    injection h1 with e1 e2
    subst e1
    subst e2
    have hrec := ih l₂ sa sb st2 tb t2 hr h2
    show tokenizeChars state (c :: (cs ++ l₂)) = (st2, ta ++ tb ++ t2)
    simp [tokenizeChars, hp, hrec]

theorem feedChunks_eq (chunks : List String) : ∀ state : State,
    feedChunks state chunks =
      tokenizeChars state (chunks.map String.data).flatten := by
  induction chunks with
  | nil => intro state; rfl
  | cons c cs ih =>
    intro state
    rcases hp : tokenizeChars state c.data with ⟨s1, t1⟩
    rcases hr : tokenizeChars s1 (cs.map String.data).flatten with ⟨s2, t2⟩
    have happ := tokenizeChars_append c.data (cs.map String.data).flatten
      state s1 s2 t1 t2 hp hr
    have ihs := ih s1
    rw [hr] at ihs
    have hmap : (List.map String.data (c :: cs)).flatten =
        c.data ++ (cs.map String.data).flatten := by simp
    rw [hmap, happ]
    simp [feedChunks, tokenizeChunk, hp, ihs]

end Tokenizer

/-- Claim C8: feeding any partition of a string chunk by chunk into one
shared tokenizer state (a `tokenizeChunk` per chunk, then one final
`flushState`) produces exactly the same tokens — types, values, offsets and
locations — and the same success-or-error outcome as `tokenize` applied to
the whole concatenation at once. -/
theorem claim8_chunked_equals_whole (chunks : List String) :
    tokenizeStream chunks = tokenize (String.join chunks) := by
  unfold tokenizeStream tokenize tokenizeChunk
  rw [String.data_join, ← feedChunks_eq]

/-! Emitted token ranges tile the input with no gaps. -/

theorem chainedFrom_append : ∀ (l₁ l₂ : List Token) (o o₁ o₂ : Nat),
    chainedFrom o l₁ o₁ → chainedFrom o₁ l₂ o₂ →
    chainedFrom o (l₁ ++ l₂) o₂ := by
  intro l₁
  induction l₁ with
  | nil =>
    intro l₂ o o₁ o₂ h1 h2
    have h1' : o₁ = o := h1
    subst h1'
    simpa using h2
  | cons t ts ih =>
    intro l₂ o o₁ o₂ h1 h2
    obtain ⟨hs, htail⟩ := h1
    exact ⟨hs, ih l₂ _ _ _ htail h2⟩

theorem chainedFrom_head (ts : List Token) (o o' : Nat) (h : chainedFrom o ts o') :
    ∀ t rest, ts = t :: rest → t.range.start = o := by
  intro t rest he
  subst he
  exact h.1

theorem chainedFrom_chain' : ∀ (ts : List Token) (o o' : Nat), chainedFrom o ts o' →
    List.Chain' (fun a b : Token => a.range.stop = b.range.start) ts := by
  intro ts
  induction ts with
  | nil => intro o o' _; exact List.chain'_nil
  | cons t ts ih =>
    intro o o' h
    obtain ⟨hs, htail⟩ := h
    rcases ts with _ | ⟨u, us⟩
    · exact List.chain'_singleton t
    · have hu := htail.1
      exact List.chain'_cons.mpr ⟨hu.symm, ih _ _ htail⟩

namespace Tokenizer

theorem flushBuffer_chained (state : State) (buffer : String) (type : TokenType) :
    chainedFrom state.locationSnapshot.offset (flushBuffer state buffer type).2.2
      (flushBuffer state buffer type).1.locationSnapshot.offset := by
  unfold flushBuffer flushRange
  split
  · exact ⟨rfl, rfl⟩
  · exact rfl

theorem transitionFromLiteralToEscapeMode_chained (state : State) (buffer : String) :
    chainedFrom state.locationSnapshot.offset
      (transitionFromLiteralToEscapeMode state buffer).2
      (transitionFromLiteralToEscapeMode state buffer).1.locationSnapshot.offset := by
  unfold transitionFromLiteralToEscapeMode
  have h := flushBuffer_chained state buffer TokenType.Literal
  rcases hfb : flushBuffer state buffer TokenType.Literal with ⟨s2, b2, ts2⟩
  rw [hfb] at h
  exact h

theorem transitionFromLiteralToInterpolationMode_chained (state : State)
    (buffer : String) :
    chainedFrom state.locationSnapshot.offset
      (transitionFromLiteralToInterpolationMode state buffer).2
      (transitionFromLiteralToInterpolationMode state buffer).1.locationSnapshot.offset := by
  unfold transitionFromLiteralToInterpolationMode
  have h := flushBuffer_chained state buffer TokenType.Literal
  rcases hfb : flushBuffer state buffer TokenType.Literal with ⟨s2, b2, ts2⟩
  rw [hfb] at h
  exact h

theorem transitionFromInterpolationToLiteralMode_chained (state : State)
    (buffer : String) :
    chainedFrom state.locationSnapshot.offset
      (transitionFromInterpolationToLiteralMode state buffer).2
      (transitionFromInterpolationToLiteralMode state buffer).1.locationSnapshot.offset := by
  unfold transitionFromInterpolationToLiteralMode
  have h := flushBuffer_chained state buffer TokenType.Interpolation
  rcases hfb : flushBuffer state buffer TokenType.Interpolation with ⟨s2, b2, ts2⟩
  rw [hfb] at h
  exact h

theorem processLiteralCharacter_chained (state : State) (buffer : String)
    (character : Char) :
    chainedFrom state.locationSnapshot.offset
      (processLiteralCharacter state buffer character).2
      (processLiteralCharacter state buffer character).1.locationSnapshot.offset := by
  unfold processLiteralCharacter
  split
  · exact transitionFromLiteralToEscapeMode_chained state buffer
  · exact transitionFromLiteralToInterpolationMode_chained state buffer
  · exact rfl

theorem processEscapeCharacter_chained (state : State) (character : Char) :
    chainedFrom state.locationSnapshot.offset
      (processEscapeCharacter state character).2
      (processEscapeCharacter state character).1.locationSnapshot.offset := by
  unfold processEscapeCharacter flushRange transitionFromEscapeToLiteralMode
  split
  · exact ⟨rfl, rfl⟩
  · exact ⟨rfl, rfl⟩
  · exact ⟨rfl, rfl⟩

theorem processInterpolationCharacter_chained (state : State) (buffer : String)
    (n : Int) (character : Char) :
    chainedFrom state.locationSnapshot.offset
      (processInterpolationCharacter state buffer n character).2
      (processInterpolationCharacter state buffer n character).1.locationSnapshot.offset := by
  unfold processInterpolationCharacter
  split
  · exact rfl
  · split
    · exact transitionFromInterpolationToLiteralMode_chained state buffer
    · exact rfl
  · exact rfl

theorem processCharacter_chained (state : State) (character : Char) :
    chainedFrom state.locationSnapshot.offset
      (processCharacter state character).2
      (processCharacter state character).1.locationSnapshot.offset := by
  unfold processCharacter
  rcases hts : trackCharacter state character with ⟨tr2, snap2, mode2⟩
  have hs : snap2 = state.locationSnapshot := by
    have h := trackCharacter_locationSnapshot state character
    rw [hts] at h
    exact h
  subst hs
  rcases mode2 with buffer | _ | ⟨buffer, n⟩
  · exact processLiteralCharacter_chained
      ⟨tr2, state.locationSnapshot, Mode.literal buffer⟩ buffer character
  · exact processEscapeCharacter_chained
      ⟨tr2, state.locationSnapshot, Mode.escape⟩ character
  · exact processInterpolationCharacter_chained
      ⟨tr2, state.locationSnapshot, Mode.interpolation buffer n⟩ buffer n character

theorem tokenizeChars_chained : ∀ (cs : List Char) (state : State),
    chainedFrom state.locationSnapshot.offset (tokenizeChars state cs).2
      (tokenizeChars state cs).1.locationSnapshot.offset := by
  intro cs
  induction cs with
  | nil => intro state; exact rfl
  | cons c cs ih =>
    intro state
    rcases hp : processCharacter state c with ⟨s1, t1⟩
    rcases hr : tokenizeChars s1 cs with ⟨s2, t2⟩
    have h1 := processCharacter_chained state c
    rw [hp] at h1
    have h2 := ih s1
    rw [hr] at h2
    have hall := chainedFrom_append t1 t2 _ _ _ h1 h2
    have heq : tokenizeChars state (c :: cs) = (s2, t1 ++ t2) := by
      simp [tokenizeChars, hp, hr]
    rw [heq]
    exact hall

theorem flushState_chained (state st2 : State) (ts : List Token)
    (h : flushState state = Except.ok (st2, ts)) :
    chainedFrom state.locationSnapshot.offset ts st2.locationSnapshot.offset := by
  rcases state with ⟨tr, snap, mode⟩
  rcases mode with buffer | _ | ⟨buffer, n⟩
  · have hfb := flushBuffer_chained ⟨tr, snap, Mode.literal buffer⟩ buffer
      TokenType.Literal
    rcases hb : flushBuffer ⟨tr, snap, Mode.literal buffer⟩ buffer TokenType.Literal
      with ⟨s2, b2, ts2⟩
    rw [hb] at hfb
    unfold flushState at h
    dsimp only at h
    rw [hb] at h
    dsimp only at h
    injection h with h1
    injection h1 with hst hts
    subst hst
    subst hts
    exact hfb
  · rw [flushState_escape] at h
    exact absurd h (fun hh => Except.noConfusion hh)
  · rw [flushState_interpolation] at h
    exact absurd h (fun hh => Except.noConfusion hh)

end Tokenizer

/-- Claim C10: whenever `tokenize` succeeds with a non-empty token list, the
emitted tokens' ranges tile an initial segment of the input with no gaps —
the first token's range starts at offset 0 and every later token's range
starts exactly where the previous token's range ended (delimiter characters
are absorbed into the ranges, so consecutive tokens are offset-adjacent). -/
theorem claim10_ranges_tile (s : String) (ts : List Token)
    (h : tokenize s = Except.ok ts) :
    (∀ t rest, ts = t :: rest → t.range.start = 0) ∧
    List.Chain' (fun a b : Token => a.range.stop = b.range.start) ts := by
  unfold tokenize at h
  rcases hp : tokenizeChunk createState s with ⟨st, toks⟩
  rw [hp] at h
  dsimp only at h
  rcases hfs : Tokenizer.flushState st with err | ⟨st2, rest2⟩
  · rw [hfs] at h
    exact absurd h (fun hh => Except.noConfusion hh)
  · rw [hfs] at h
    dsimp only at h
    injection h with hts
    subst hts
    have h1 : chainedFrom 0 toks st.locationSnapshot.offset := by
      have hchars := tokenizeChars_chained s.data createState
      rw [show tokenizeChars createState s.data = (st, toks) from hp] at hchars
      exact hchars
    have h2 := Tokenizer.flushState_chained st st2 rest2 hfs
    have hall := chainedFrom_append toks rest2 0 _ _ h1 h2
    exact ⟨chainedFrom_head _ _ _ hall, chainedFrom_chain' _ _ _ hall⟩

/-- Closed instance of claim C10, applying the theorem to the tokenization
of `a\bc`, which emits three adjacent tokens. -/
theorem claim10_witness :
    (∀ t rest,
      [(⟨TokenType.Literal, "a", ⟨0, 2, ⟨1, 0⟩, ⟨1, 2⟩⟩⟩ : Token),
       ⟨TokenType.Literal, "\\b", ⟨2, 3, ⟨1, 2⟩, ⟨1, 3⟩⟩⟩,
       ⟨TokenType.Literal, "c", ⟨3, 4, ⟨1, 3⟩, ⟨1, 4⟩⟩⟩] = t :: rest →
      t.range.start = 0) ∧
    List.Chain' (fun a b : Token => a.range.stop = b.range.start)
      [⟨TokenType.Literal, "a", ⟨0, 2, ⟨1, 0⟩, ⟨1, 2⟩⟩⟩,
       ⟨TokenType.Literal, "\\b", ⟨2, 3, ⟨1, 2⟩, ⟨1, 3⟩⟩⟩,
       ⟨TokenType.Literal, "c", ⟨3, 4, ⟨1, 3⟩, ⟨1, 4⟩⟩⟩] :=
  claim10_ranges_tile "a\\bc"
    [⟨TokenType.Literal, "a", ⟨0, 2, ⟨1, 0⟩, ⟨1, 2⟩⟩⟩,
     ⟨TokenType.Literal, "\\b", ⟨2, 3, ⟨1, 2⟩, ⟨1, 3⟩⟩⟩,
     ⟨TokenType.Literal, "c", ⟨3, 4, ⟨1, 3⟩, ⟨1, 4⟩⟩⟩] rfl

/-- Closed instance of claim C7, applying the theorem to the compression of
two adjacent Literal tokens. -/
theorem claim7_witness :
    compressTokens [⟨TokenType.Literal, "foobar", ⟨0, 6, ⟨1, 0⟩, ⟨1, 6⟩⟩⟩] =
      Except.ok [⟨TokenType.Literal, "foobar", ⟨0, 6, ⟨1, 0⟩, ⟨1, 6⟩⟩⟩] :=
  claim7_compress_idempotent
    [⟨TokenType.Literal, "foo", ⟨0, 3, ⟨1, 0⟩, ⟨1, 3⟩⟩⟩,
     ⟨TokenType.Literal, "bar", ⟨3, 6, ⟨1, 3⟩, ⟨1, 6⟩⟩⟩]
    [⟨TokenType.Literal, "foobar", ⟨0, 6, ⟨1, 0⟩, ⟨1, 6⟩⟩⟩] rfl

end Jst
